import Mathlib

/-!
Verification of the QR payload classification and action-dispatch engine of the
`qrcode` React Native application.

The program source lives in `src/src/screens/ScannerScreen.js` (general scanner:
`identifyDataType`, `handleScannedData`, `executeAction`,
`handleDeepLinkNavigation`, `restartCamera`) and
`src/src/screens/AppOnlyScannerScreen.js` (restricted scanner:
`validateAppQRCode`, `handleAppOnlyScannedData`, `handleAppDeepLinkNavigation`,
`restartCamera`).

Strings are embedded as `List Char`.  The JavaScript string primitives used by
the source — `String.prototype.startsWith`, `includes`, `split`, and the regex
`/^https?:\/\/.+/i` — are modelled below (`startsWithL`, `includesL`,
`splitOnL`, `matchesHttpRegex`) with JS semantics: `split` cuts at every
non-overlapping leftmost occurrence of the separator, `.` in a regex does not
match a line terminator, and the `i` flag performs ASCII case folding.
React `useState` cells of each screen are gathered into an explicit state
record; a scanned-event handler becomes a state-transition function returning
the new state, a dispatch outcome, and whether the suppression-release timer
was scheduled (`setTimeout` at the end of the handler).  External collaborators
that can throw (`Linking.openURL`, `navigation.navigate`) are modelled by
Boolean failure oracles passed to the transition functions.
-/

/-- Characters of a string literal. -/
def str (s : String) : List Char := s.data

/-- JS `String.prototype.startsWith` on character lists (first arg: pattern). -/
def startsWithL : List Char → List Char → Bool
  | [], _ => true
  | _ :: _, [] => false
  | p :: ps, c :: cs => p == c && startsWithL ps cs

/-- JS `String.prototype.includes` on character lists (first arg: pattern). -/
def includesL (p : List Char) : List Char → Bool
  | [] => startsWithL p []
  | c :: cs => startsWithL p (c :: cs) || includesL p cs

/-- Leftmost occurrence of `p` in a string: the part before it and the part
after it, or `none` when `p` does not occur. -/
def findSub (p : List Char) : List Char → Option (List Char × List Char)
  | [] => if startsWithL p [] then some ([], []) else none
  | c :: cs =>
    if startsWithL p (c :: cs) then some ([], (c :: cs).drop p.length)
    else match findSub p cs with
      | none => none
      | some (a, b) => some (c :: a, b)

/-- Fuelled worker for `splitOnL`; one unit of fuel per separator occurrence
consumed, so `length + 1` units always suffice for a non-empty separator. -/
def splitOnAux (p : List Char) : Nat → List Char → List (List Char)
  | 0, s => [s]
  | fuel + 1, s =>
    match findSub p s with
    | none => [s]
    | some (a, b) => a :: splitOnAux p fuel b

/-- JS `String.prototype.split` with a non-empty string separator: cut at every
non-overlapping leftmost occurrence. -/
def splitOnL (p s : List Char) : List (List Char) := splitOnAux p (s.length + 1) s

theorem startsWithL_iff (p s : List Char) : startsWithL p s = true ↔ ∃ t, s = p ++ t := by
  induction p generalizing s with
  | nil => simp [startsWithL]
  | cons a as ih =>
    cases s with
    | nil => simp [startsWithL]
    | cons c cs =>
      simp only [startsWithL, Bool.and_eq_true, beq_iff_eq, ih, List.cons_append,
        List.cons.injEq]
      constructor
      · rintro ⟨rfl, t, rfl⟩; exact ⟨t, rfl, rfl⟩
      · rintro ⟨t, rfl, rfl⟩; exact ⟨rfl, t, rfl⟩

theorem includesL_iff (p s : List Char) : includesL p s = true ↔ ∃ a b, s = a ++ p ++ b := by
  induction s with
  | nil =>
    simp only [includesL, startsWithL_iff]
    constructor
    · rintro ⟨t, h⟩; exact ⟨[], t, by simpa using h⟩
    · rintro ⟨a, b, h⟩
      refine ⟨b, ?_⟩
      rcases List.append_eq_nil.mp h.symm with ⟨h1, h2⟩
      rcases List.append_eq_nil.mp h1 with ⟨rfl, rfl⟩
      simpa using h.symm
  | cons c cs ih =>
    simp only [includesL, Bool.or_eq_true, startsWithL_iff, ih]
    constructor
    · rintro (⟨t, h⟩ | ⟨a, b, rfl⟩)
      · exact ⟨[], t, by simpa using h⟩
      · exact ⟨c :: a, b, by simp⟩
    · rintro ⟨a, b, h⟩
      cases a with
      | nil => exact Or.inl ⟨b, by simpa using h⟩
      | cons x xs =>
        right
        simp only [List.cons_append, List.cons.injEq] at h
        exact ⟨xs, b, h.2⟩

theorem startsWithL_append (p t : List Char) : startsWithL p (p ++ t) = true :=
  (startsWithL_iff p (p ++ t)).mpr ⟨t, rfl⟩

theorem includesL_of_startsWithL (p s : List Char) (h : startsWithL p s = true) :
    includesL p s = true := by
  rcases (startsWithL_iff p s).mp h with ⟨t, rfl⟩
  exact (includesL_iff p (p ++ t)).mpr ⟨[], t, by simp⟩

theorem findSub_eq_none (p s : List Char) (h : includesL p s = false) :
    findSub p s = none := by
  induction s with
  | nil =>
    simp only [includesL] at h
    simp [findSub, h]
  | cons c cs ih =>
    simp only [includesL, Bool.or_eq_false_iff] at h
    simp [findSub, h.1, ih h.2]

theorem splitOnAux_succ (p : List Char) (fuel : Nat) (s : List Char) :
    splitOnAux p (fuel + 1) s =
      match findSub p s with
      | none => [s]
      | some (a, b) => a :: splitOnAux p fuel b := rfl

theorem splitOnAux_of_none (p s : List Char) (h : findSub p s = none)
    (fuel : Nat) : splitOnAux p fuel s = [s] := by
  cases fuel <;> simp [splitOnAux, h]

theorem splitOnAux_ne_nil (p : List Char) (fuel : Nat) (s : List Char) :
    splitOnAux p fuel s ≠ [] := by
  cases fuel with
  | zero => simp [splitOnAux]
  | succ n =>
    simp only [splitOnAux]
    cases findSub p s with
    | none => simp
    | some ab => cases ab; simp

/-- Evaluation of `split('://')` on a well-formed app deep link whose remainder holds no
further separator. -/
theorem splitOnL_scheme (t : List Char) (h : includesL (str "://") t = false) :
    splitOnL (str "://") (str "qrcodeapp://" ++ t) = [str "qrcodeapp", t] := by
  unfold splitOnL
  obtain ⟨n, hn⟩ : ∃ n, (str "qrcodeapp://" ++ t).length + 1 = n + 1 :=
    ⟨(str "qrcodeapp://" ++ t).length, rfl⟩
  rw [hn, splitOnAux_succ,
    show findSub (str "://") (str "qrcodeapp://" ++ t) = some (str "qrcodeapp", t) from rfl]
  simp only [splitOnAux_of_none _ _ (findSub_eq_none _ _ h)]

/-- Evaluation of `split('qrcodeapp://')` on a string carrying that prefix, remainder free of
the separator. -/
theorem splitOnL_appscheme (t : List Char)
    (h : includesL (str "qrcodeapp://") t = false) :
    splitOnL (str "qrcodeapp://") (str "qrcodeapp://" ++ t) = [[], t] := by
  unfold splitOnL
  obtain ⟨n, hn⟩ : ∃ n, (str "qrcodeapp://" ++ t).length + 1 = n + 1 :=
    ⟨(str "qrcodeapp://" ++ t).length, rfl⟩
  rw [hn, splitOnAux_succ,
    show findSub (str "qrcodeapp://") (str "qrcodeapp://" ++ t) = some ([], t) from rfl]
  simp only [splitOnAux_of_none _ _ (findSub_eq_none _ _ h)]

/-- Evaluation of `split('user/')` on a path starting with `user/`, remainder free of the
separator. -/
theorem splitOnL_user (t : List Char) (h : includesL (str "user/") t = false) :
    splitOnL (str "user/") (str "user/" ++ t) = [[], t] := by
  unfold splitOnL
  obtain ⟨n, hn⟩ : ∃ n, (str "user/" ++ t).length + 1 = n + 1 :=
    ⟨(str "user/" ++ t).length, rfl⟩
  rw [hn, splitOnAux_succ,
    show findSub (str "user/") (str "user/" ++ t) = some ([], t) from rfl]
  simp only [splitOnAux_of_none _ _ (findSub_eq_none _ _ h)]

/-- When the separator occurs, `split` returns at least two pieces. -/
theorem splitOnL_two_of_startsWith (p s : List Char) (hp : p ≠ [])
    (h : startsWithL p s = true) :
    ∃ x y ys, splitOnL p s = x :: y :: ys := by
  rcases (startsWithL_iff p s).mp h with ⟨t, rfl⟩
  unfold splitOnL
  obtain ⟨n, hn⟩ : ∃ n, (p ++ t).length + 1 = n + 1 := ⟨(p ++ t).length, rfl⟩
  rw [hn, splitOnAux_succ]
  have hfind : findSub p (p ++ t) = some ([], t) := by
    cases p with
    | nil => exact absurd rfl hp
    | cons a as =>
      simp only [findSub, List.cons_append, startsWithL_append,
        show startsWithL (a :: as) ((a :: as) ++ t) = true from startsWithL_append _ t]
      rw [if_pos]
      · simp [List.drop_left]
      · exact startsWithL_append (a :: as) t
  rcases hsplit : splitOnAux p n t with _ | ⟨y, ys⟩
  · exact absurd hsplit (splitOnAux_ne_nil p n t)
  · exact ⟨[], y, ys, by rw [hfind]; simp [hsplit]⟩

/- ### Classifier (ScannerScreen.js, `identifyDataType`, lines 88-119) -/

/-- The content-type tags of the source.  Each constructor stands for the
string literal the code uses: `'Website'`, `'Phone'`, `'SMS'`, `'Email'`,
`'Contact vCard'`, `'Calendar'`, `'App deep link'`, `'Text'`; `error`
stands for the `'Error'` tag produced only by `executeAction`'s catch. -/
inductive ContentType where
  | website
  | phone
  | sms
  | email
  | contactCard
  | calendarEvent
  | appDeepLink
  | text
  | error
  deriving DecidableEq, Repr

/-- Result of `identifyDataType`: `{ type, action }`. -/
structure DataInfo where
  type : ContentType
  action : List Char
  deriving DecidableEq, Repr

/-- JS regex `.` (no `s` flag): any character except a line terminator. -/
def jsDot (c : Char) : Bool :=
  !(c == '\n' || c == '\r' || c == '\u2028' || c == '\u2029')

/-- The test `data.match(/^https?:\/\/.+/i)`: an ASCII-case-insensitive
`http://` or `https://` prefix followed by at least one non-line-terminator
character. -/
def matchesHttpRegex (s : List Char) : Bool :=
  match s.map Char.toLower with
  | 'h' :: 't' :: 't' :: 'p' :: ':' :: '/' :: '/' :: c :: _ => jsDot c
  | 'h' :: 't' :: 't' :: 'p' :: 's' :: ':' :: '/' :: '/' :: c :: _ => jsDot c
  | _ => false

/-- The classifier `identifyDataType` (ScannerScreen.js lines 88-119), rule for rule. -/
def identifyDataType (data : List Char) : DataInfo :=
  if matchesHttpRegex data then
    ⟨.website, str "Open in browser"⟩
  else if startsWithL (str "tel:") data then
    ⟨.phone, str "Open dialer"⟩
  else if startsWithL (str "sms:") data then
    ⟨.sms, str "Open SMS app"⟩
  else if startsWithL (str "mailto:") data then
    ⟨.email, str "Open email client"⟩
  else if startsWithL (str "BEGIN:VCARD") data && includesL (str "END:VCARD") data then
    ⟨.contactCard, str "Parse → add contact"⟩
  else if startsWithL (str "BEGIN:VEVENT") data && includesL (str "END:VEVENT") data then
    ⟨.calendarEvent, str "Add event"⟩
  else if startsWithL (str "qrcodeapp://") data then
    ⟨.appDeepLink, str "Navigate inside your app"⟩
  else
    ⟨.text, str "Display content"⟩

/- ### Deep-link resolution (ScannerScreen.js, `handleDeepLinkNavigation`,
lines 301-361, and AppOnlyScannerScreen.js, `handleAppDeepLinkNavigation`,
lines 155-198) -/

/-- Navigation target descriptors.  `scanner` is the no-op target (the code
stays on the scanner screen and does not navigate). -/
inductive NavTarget where
  | home
  | users
  | userDetail (id : List Char)
  | scanner
  deriving DecidableEq, Repr

/-- Path extraction of `handleDeepLinkNavigation` (lines 306-317):
`parts = url.split('://'); if (parts.length > 1) path = parts[1]`, with the
whole string as path when no `://` occurs. -/
def deepLinkPath (deepLinkUrl : List Char) : List Char :=
  if includesL (str "://") deepLinkUrl then
    match splitOnL (str "://") deepLinkUrl with
    | _ :: p :: _ => p
    | _ => []
  else deepLinkUrl

/-- Pattern-matching step of `handleDeepLinkNavigation` (lines 321-351): the
pure resolver from a deep-link string to the navigation target. -/
def deepLinkTarget (deepLinkUrl : List Char) : NavTarget :=
  let path := deepLinkPath deepLinkUrl
  if includesL (str "user/") path then
    match splitOnL (str "user/") path with
    | _ :: userId :: _ => if userId = [] then .users else .userDetail userId
    | _ => .users
  else if includesL (str "users") path then .users
  else if includesL (str "scanner") path then .scanner
  else if includesL (str "home") path then .home
  else if includesL (str "profile") path then .users
  else if includesL (str "dashboard") path then .home
  else .home

/-- Path extraction of the restricted `handleAppDeepLinkNavigation` (line 160):
`path = url.split('qrcodeapp://')[1]`; `none` models the `undefined` index
(whose later `.includes` access throws, landing in the handler's catch). -/
def appDeepLinkPath (deepLinkUrl : List Char) : Option (List Char) :=
  match splitOnL (str "qrcodeapp://") deepLinkUrl with
  | _ :: p :: _ => some p
  | _ => none

/-- Pattern-matching step of `handleAppDeepLinkNavigation` (lines 164-185);
note: no `profile` and no `dashboard` branch, unlike the general resolver. -/
def appDeepLinkTarget (deepLinkUrl : List Char) : Option NavTarget :=
  match appDeepLinkPath deepLinkUrl with
  | none => none
  | some path =>
    some (if includesL (str "user/") path then
        match splitOnL (str "user/") path with
        | _ :: userId :: _ => if userId = [] then .users else .userDetail userId
        | _ => .users
      else if includesL (str "users") path then .users
      else if includesL (str "scanner") path then .scanner
      else if includesL (str "home") path then .home
      else .home)

/- ### General scan dispatcher (ScannerScreen.js) -/

/-- One entry of the general scan history (lines 159-164):
`{ id: Date.now(), data, type: dataInfo.type, timestamp }`.  `Date.now()` is
supplied by the environment as the `id` argument of the handler; the
human-readable `timestamp` string is display-only and omitted. -/
structure HistoryEntry where
  id : Nat
  data : List Char
  type : ContentType
  deriving DecidableEq, Repr

/-- The `currentScannedData` record `{ data, dataInfo }`. -/
structure ScannedData where
  data : List Char
  dataInfo : DataInfo
  deriving DecidableEq, Repr

/-- The `useState` cells of `ScannerScreen` that the dispatch logic touches:
`isScanning` (the Suppressed flag), `scanHistory`, `showResultPage`,
`currentScannedData`, `cameraKey`. -/
structure ScannerState where
  isScanning : Bool
  scanHistory : List HistoryEntry
  showResultPage : Bool
  currentScannedData : Option ScannedData
  cameraKey : Nat
  deriving DecidableEq, Repr

/-- Initial state of the screen (`useState(false)`, `useState([])`, …). -/
def initialScannerState : ScannerState :=
  { isScanning := false, scanHistory := [], showResultPage := false,
    currentScannedData := none, cameraKey := 0 }

/-- Dispatch outcome of one decode event, read off from the side effects the
handler performs: `ignored` (early return while suppressed), `executed`
(`Linking.openURL` fired), `navigated` (`navigation.navigate`, or the no-op
`scanner` target), `presented` (result page shown with the given record),
`loggedOnly` (the `default` arm of `executeAction`, console log only). -/
inductive Outcome where
  | ignored
  | executed (data : List Char) (type : ContentType)
  | navigated (target : NavTarget)
  | presented (shown : ScannedData)
  | loggedOnly
  deriving DecidableEq, Repr

/-- Result of one call of the scanned-data handler: the new state, the
outcome, and whether the 100 ms suppression-release `setTimeout` was
scheduled (it is not on the early suppressed return). -/
structure StepResult where
  state : ScannerState
  outcome : Outcome
  timerScheduled : Bool
  deriving DecidableEq, Repr

/-- The handler `handleDeepLinkNavigation` (lines 301-361) as a state transition.
`navFails` models `navigation.navigate` throwing; the function's own catch
then shows the result page with `{ type: 'App deep link', action: 'Navigation
failed' }`.  The `scanner` target performs no external call, so it cannot
fail. -/
def handleDeepLinkNavigation (st : ScannerState) (deepLinkUrl : List Char)
    (navFails : Bool) : ScannerState × Outcome :=
  let target := deepLinkTarget deepLinkUrl
  if target = .scanner then (st, .navigated .scanner)
  else if navFails then
    ({ st with showResultPage := true,
               currentScannedData :=
                 some ⟨deepLinkUrl, ⟨.appDeepLink, str "Navigation failed"⟩⟩ },
     .presented ⟨deepLinkUrl, ⟨.appDeepLink, str "Navigation failed"⟩⟩)
  else (st, .navigated target)

/-- The executor `executeAction` (lines 185-226).  `linkingFails` models `Linking.openURL`
throwing; the surrounding catch then shows the result page with
`{ type: 'Error', action: 'Could not process' }`.  Deep-link navigation is
delegated to `handleDeepLinkNavigation`, whose own catch absorbs navigation
failures before they can reach this function's catch. -/
def executeAction (st : ScannerState) (data : List Char) (dataInfo : DataInfo)
    (linkingFails navFails : Bool) : ScannerState × Outcome :=
  match dataInfo.type with
  | .website | .phone | .sms | .email =>
    if linkingFails then
      ({ st with showResultPage := true,
                 currentScannedData := some ⟨data, ⟨.error, str "Could not process"⟩⟩ },
       .presented ⟨data, ⟨.error, str "Could not process"⟩⟩)
    else (st, .executed data dataInfo.type)
  | .appDeepLink => handleDeepLinkNavigation st data navFails
  | .contactCard | .calendarEvent =>
    ({ st with showResultPage := true, currentScannedData := some ⟨data, dataInfo⟩ },
     .presented ⟨data, dataInfo⟩)
  | _ => (st, .loggedOnly)

/-- The handler `handleScannedData` (lines 143-183): suppression check, classification,
history insertion (`[newItem, ...prev.slice(0, 49)]`), then auto-processing
for the five auto types or the result page for the rest. -/
def handleScannedData (st : ScannerState) (data : List Char) (id : Nat)
    (linkingFails navFails : Bool) : StepResult :=
  if st.isScanning then ⟨st, .ignored, false⟩
  else
    let dataInfo := identifyDataType data
    let newHistoryItem : HistoryEntry := ⟨id, data, dataInfo.type⟩
    let st1 := { st with isScanning := true,
                         scanHistory := newHistoryItem :: st.scanHistory.take 49 }
    let p :=
      if dataInfo.type = .website ∨ dataInfo.type = .phone ∨ dataInfo.type = .sms
          ∨ dataInfo.type = .email ∨ dataInfo.type = .appDeepLink then
        executeAction st1 data dataInfo linkingFails navFails
      else
        ({ st1 with showResultPage := true, currentScannedData := some ⟨data, dataInfo⟩ },
         .presented ⟨data, dataInfo⟩)
    ⟨p.1, p.2, true⟩

/-- The 100 ms `setTimeout` callback of `handleScannedData` (lines 179-182):
`setIsScanning(false)`. -/
def scanTimerFire (st : ScannerState) : ScannerState := { st with isScanning := false }

/-- The function `restartCamera` (lines 271-276): bump `cameraKey`, clear `isScanning`. -/
def restartCamera (st : ScannerState) : ScannerState :=
  { st with cameraKey := st.cameraKey + 1, isScanning := false }

/-- History entry produced for a decode event `(data, id)`. -/
def mkEntry (e : List Char × Nat) : HistoryEntry :=
  ⟨e.2, e.1, (identifyDataType e.1).type⟩

/-- A sequence of decode events, each separated by enough time for the
suppression timer to fire (no failures from external collaborators). -/
def runScans : ScannerState → List (List Char × Nat) → ScannerState
  | st, [] => st
  | st, e :: es => runScans (scanTimerFire (handleScannedData st e.1 e.2 false false).state) es

/- ### Restricted scan dispatcher (AppOnlyScannerScreen.js) -/

/-- Result of `validateAppQRCode` (lines 74-92): `{ isValid, type, action }`
with the source's literal strings kept. -/
structure ValidationResult where
  isValid : Bool
  type : List Char
  action : List Char
  deriving DecidableEq, Repr

/-- The gate `validateAppQRCode` (AppOnlyScannerScreen.js lines 74-92). -/
def validateAppQRCode (data : List Char) : ValidationResult :=
  if startsWithL (str "qrcodeapp://") data then
    ⟨true, str "App Deep Link", str "Navigate within app"⟩
  else
    ⟨false, str "External/Invalid", str "Not app-related"⟩

/-- One entry of the restricted scan history (lines 116-122):
`{ id, data, type, isValid, timestamp }`. -/
structure AppHistoryEntry where
  id : Nat
  data : List Char
  type : List Char
  isValid : Bool
  deriving DecidableEq, Repr

/-- The `currentScannedData` record of the restricted screen, flattened to
the fields the code sets: raw data plus the `dataInfo` type/action strings. -/
structure AppScannedData where
  data : List Char
  type : List Char
  action : List Char
  deriving DecidableEq, Repr

/-- The `useState` cells of `AppOnlyScannerScreen` touched by dispatch. -/
structure AppScannerState where
  isScanning : Bool
  appScanHistory : List AppHistoryEntry
  showResultPage : Bool
  currentScannedData : Option AppScannedData
  cameraKey : Nat
  deriving DecidableEq, Repr

/-- Initial state of the restricted screen. -/
def initialAppScannerState : AppScannerState :=
  { isScanning := false, appScanHistory := [], showResultPage := false,
    currentScannedData := none, cameraKey := 0 }

/-- Outcome of one restricted decode event: `ignored` while suppressed,
`navigated` on a resolved deep link (`scanner` being the alert-only no-op),
`navFailed` when the deep-link handler's catch fired, `rejected` for
non-app payloads. -/
inductive AppOutcome where
  | ignored
  | navigated (target : NavTarget)
  | navFailed
  | rejected
  deriving DecidableEq, Repr

/-- Result of one call of the restricted handler. -/
structure AppStepResult where
  state : AppScannerState
  outcome : AppOutcome
  timerScheduled : Bool
  deriving DecidableEq, Repr

/-- The handler `handleAppDeepLinkNavigation` (lines 155-198) as a state transition;
`navFails` models `navigation.navigate` throwing into the catch, which shows
`{ type: 'App Deep Link Error', action: 'Navigation failed' }`.  A missing
path (`split` yielding no second part, so `path.includes` throws) lands in
the same catch.  The `scanner` branch only raises an alert. -/
def handleAppDeepLinkNavigation (st : AppScannerState) (deepLinkUrl : List Char)
    (navFails : Bool) : AppScannerState × AppOutcome :=
  let errSt : AppScannerState :=
    { st with showResultPage := true,
              currentScannedData :=
                some ⟨deepLinkUrl, str "App Deep Link Error", str "Navigation failed"⟩ }
  match appDeepLinkTarget deepLinkUrl with
  | none => (errSt, .navFailed)
  | some target =>
    if target = .scanner then (st, .navigated .scanner)
    else if navFails then (errSt, .navFailed)
    else (st, .navigated target)

/-- The handler `handleAppOnlyScannedData` (lines 100-148): suppression check, validation,
history insertion (`[newItem, ...prev.slice(0, 49)]`), then deep-link handling
for valid payloads or the rejection page for the rest. -/
def handleAppOnlyScannedData (st : AppScannerState) (data : List Char) (id : Nat)
    (navFails : Bool) : AppStepResult :=
  if st.isScanning then ⟨st, .ignored, false⟩
  else
    let validation := validateAppQRCode data
    let newHistoryItem : AppHistoryEntry := ⟨id, data, validation.type, validation.isValid⟩
    let st1 := { st with isScanning := true,
                         appScanHistory := newHistoryItem :: st.appScanHistory.take 49 }
    if validation.isValid then
      let p := handleAppDeepLinkNavigation st1 data navFails
      ⟨p.1, p.2, true⟩
    else
      ⟨{ st1 with showResultPage := true,
                  currentScannedData :=
                    some ⟨data, str "Rejected", str "This QR code is not app-related"⟩ },
        .rejected, true⟩

/-- The 100 ms `setTimeout` callback of the restricted handler. -/
def appScanTimerFire (st : AppScannerState) : AppScannerState := { st with isScanning := false }

/-- The function `restartCamera` of AppOnlyScannerScreen.js (lines 203-208). -/
def appRestartCamera (st : AppScannerState) : AppScannerState :=
  { st with cameraKey := st.cameraKey + 1, isScanning := false }

/-- Restricted history entry produced for a decode event `(data, id)`. -/
def mkAppEntry (e : List Char × Nat) : AppHistoryEntry :=
  ⟨e.2, e.1, (validateAppQRCode e.1).type, (validateAppQRCode e.1).isValid⟩

/-- A sequence of restricted decode events, suppression released in between. -/
def runAppScans : AppScannerState → List (List Char × Nat) → AppScannerState
  | st, [] => st
  | st, e :: es =>
    runAppScans (appScanTimerFire (handleAppOnlyScannedData st e.1 e.2 false).state) es

/- ### Supporting lemmas -/

/-- A payload with the `qrcodeapp://` prefix classifies as an app deep link:
no earlier rule of `identifyDataType` can fire on it. -/
theorem identifyDataType_of_qrcodeapp (data : List Char)
    (h : startsWithL (str "qrcodeapp://") data = true) :
    identifyDataType data = ⟨.appDeepLink, str "Navigate inside your app"⟩ := by
  obtain ⟨t, rfl⟩ := (startsWithL_iff _ _).mp h
  rfl

/-- Without the `qrcodeapp://` prefix, the classifier cannot answer
`appDeepLink`. -/
theorem identifyDataType_ne_appDeepLink (data : List Char)
    (h : startsWithL (str "qrcodeapp://") data = false) :
    (identifyDataType data).type ≠ .appDeepLink := by
  unfold identifyDataType
  split_ifs <;> simp_all

/-- The executor `executeAction` never touches the `isScanning` flag. -/
theorem executeAction_isScanning (st : ScannerState) (data : List Char)
    (dataInfo : DataInfo) (lf nf : Bool) :
    (executeAction st data dataInfo lf nf).1.isScanning = st.isScanning := by
  unfold executeAction handleDeepLinkNavigation
  rcases dataInfo with ⟨ty, ac⟩
  cases ty <;> simp only [] <;> split_ifs <;> rfl

/-- The executor `executeAction` never touches the history. -/
theorem executeAction_scanHistory (st : ScannerState) (data : List Char)
    (dataInfo : DataInfo) (lf nf : Bool) :
    (executeAction st data dataInfo lf nf).1.scanHistory = st.scanHistory := by
  unfold executeAction handleDeepLinkNavigation
  rcases dataInfo with ⟨ty, ac⟩
  cases ty <;> simp only [] <;> split_ifs <;> rfl

/-- From Idle, one decode event always moves the general dispatcher into the
Suppressed state. -/
theorem handleScannedData_isScanning (st : ScannerState) (data : List Char)
    (id : Nat) (lf nf : Bool) (h : st.isScanning = false) :
    (handleScannedData st data id lf nf).state.isScanning = true := by
  unfold handleScannedData
  simp only [h, Bool.false_eq_true, if_false]
  split
  · rw [executeAction_isScanning]
  · rfl

/-- From Idle, the new history of the general dispatcher is the fresh entry
followed by the first 49 old ones. -/
theorem handleScannedData_scanHistory (st : ScannerState) (data : List Char)
    (id : Nat) (lf nf : Bool) (h : st.isScanning = false) :
    (handleScannedData st data id lf nf).state.scanHistory
      = ⟨id, data, (identifyDataType data).type⟩ :: st.scanHistory.take 49 := by
  unfold handleScannedData
  simp only [h, Bool.false_eq_true, if_false]
  split
  · rw [executeAction_scanHistory]
  · rfl

/-- The handler `handleAppDeepLinkNavigation` never touches the `isScanning` flag. -/
theorem handleAppDeepLinkNavigation_isScanning (st : AppScannerState)
    (url : List Char) (nf : Bool) :
    (handleAppDeepLinkNavigation st url nf).1.isScanning = st.isScanning := by
  unfold handleAppDeepLinkNavigation
  rcases appDeepLinkTarget url with _ | t
  · rfl
  · simp only []
    split_ifs <;> rfl

/-- The handler `handleAppDeepLinkNavigation` never touches the history. -/
theorem handleAppDeepLinkNavigation_history (st : AppScannerState)
    (url : List Char) (nf : Bool) :
    (handleAppDeepLinkNavigation st url nf).1.appScanHistory = st.appScanHistory := by
  unfold handleAppDeepLinkNavigation
  rcases appDeepLinkTarget url with _ | t
  · rfl
  · simp only []
    split_ifs <;> rfl

/-- From Idle, one decode event always moves the restricted dispatcher into
the Suppressed state. -/
theorem handleAppOnlyScannedData_isScanning (st : AppScannerState)
    (data : List Char) (id : Nat) (nf : Bool) (h : st.isScanning = false) :
    (handleAppOnlyScannedData st data id nf).state.isScanning = true := by
  unfold handleAppOnlyScannedData
  simp only [h, Bool.false_eq_true, if_false]
  split
  · rw [handleAppDeepLinkNavigation_isScanning]
  · rfl

/-- From Idle, the new restricted history is the fresh entry followed by the
first 49 old ones. -/
theorem handleAppOnlyScannedData_history (st : AppScannerState)
    (data : List Char) (id : Nat) (nf : Bool) (h : st.isScanning = false) :
    (handleAppOnlyScannedData st data id nf).state.appScanHistory
      = ⟨id, data, (validateAppQRCode data).type, (validateAppQRCode data).isValid⟩
          :: st.appScanHistory.take 49 := by
  unfold handleAppOnlyScannedData
  simp only [h, Bool.false_eq_true, if_false]
  split
  · rw [handleAppDeepLinkNavigation_history]
  · rfl

/- ### Claims -/

/-- C8: for all strings, `identifyDataType` terminates and returns exactly one
content type out of the fixed eight-element enumeration (Website, Phone, SMS,
Email, AppDeepLink, ContactCard, CalendarEvent, Text); classification is a
total function with Text as the catch-all, and never fails (in particular it
never produces the `error` tag, which only `executeAction`'s catch uses). -/
theorem classify_total_eight (s : List Char) :
    (identifyDataType s).type = .website ∨ (identifyDataType s).type = .phone
  ∨ (identifyDataType s).type = .sms ∨ (identifyDataType s).type = .email
  ∨ (identifyDataType s).type = .appDeepLink ∨ (identifyDataType s).type = .contactCard
  ∨ (identifyDataType s).type = .calendarEvent ∨ (identifyDataType s).type = .text := by
  unfold identifyDataType
  split_ifs <;> simp

/-- C10: the restricted dispatcher's acceptance test and the general
classifier's app-deep-link verdict agree on every string: both reduce to the
`qrcodeapp://` prefix check, and no higher-priority classifier rule can
capture a string carrying that prefix. -/
theorem validate_iff_classifier_appDeepLink (data : List Char) :
    (validateAppQRCode data).isValid = true
      ↔ (identifyDataType data).type = .appDeepLink := by
  cases hsw : startsWithL (str "qrcodeapp://") data
  · simp [validateAppQRCode, hsw, identifyDataType_ne_appDeepLink data hsw]
  · simp [validateAppQRCode, hsw, identifyDataType_of_qrcodeapp data hsw]

/-- C9: `restartCamera` (both screens) is idempotent on the dispatcher state:
whether or not a suppression timer is pending (any value of `isScanning`),
each of two back-to-back calls leaves the dispatcher Idle, no other
dispatcher-relevant state (history, result page, scanned data) changes, and a
still-pending timer firing afterwards keeps it Idle. -/
theorem restartCamera_idempotent (st : ScannerState) (ast : AppScannerState) :
    (restartCamera st).isScanning = false
  ∧ (restartCamera (restartCamera st)).isScanning = false
  ∧ (restartCamera (restartCamera st)).scanHistory = st.scanHistory
  ∧ (restartCamera (restartCamera st)).showResultPage = st.showResultPage
  ∧ (restartCamera (restartCamera st)).currentScannedData = st.currentScannedData
  ∧ (scanTimerFire (restartCamera st)).isScanning = false
  ∧ (appRestartCamera ast).isScanning = false
  ∧ (appRestartCamera (appRestartCamera ast)).isScanning = false
  ∧ (appRestartCamera (appRestartCamera ast)).appScanHistory = ast.appScanHistory
  ∧ (appRestartCamera (appRestartCamera ast)).showResultPage = ast.showResultPage
  ∧ (appRestartCamera (appRestartCamera ast)).currentScannedData = ast.currentScannedData
  ∧ (appScanTimerFire (appRestartCamera ast)).isScanning = false := by
  simp [restartCamera, appRestartCamera, scanTimerFire, appScanTimerFire]

/-- C4: while Suppressed (`isScanning = true`), both dispatchers drop every
decode event: the state is unchanged (so no history entry is added), the
outcome is Ignored, and no timer is scheduled.  In particular, after a first
event from Idle, a second event arriving before the suppression timer fires is
Ignored and leaves the state exactly as the first event left it. -/
theorem suppressed_drops :
    (∀ (st : ScannerState) (y : List Char) (id : Nat) (lf nf : Bool),
        st.isScanning = true →
        handleScannedData st y id lf nf = ⟨st, .ignored, false⟩)
  ∧ (∀ (st : ScannerState) (x y : List Char) (idx idy : Nat) (lf nf lf2 nf2 : Bool),
        st.isScanning = false →
        handleScannedData (handleScannedData st x idx lf nf).state y idy lf2 nf2
          = ⟨(handleScannedData st x idx lf nf).state, .ignored, false⟩)
  ∧ (∀ (st : AppScannerState) (y : List Char) (id : Nat) (nf : Bool),
        st.isScanning = true →
        handleAppOnlyScannedData st y id nf = ⟨st, .ignored, false⟩)
  ∧ (∀ (st : AppScannerState) (x y : List Char) (idx idy : Nat) (nf nf2 : Bool),
        st.isScanning = false →
        handleAppOnlyScannedData (handleAppOnlyScannedData st x idx nf).state y idy nf2
          = ⟨(handleAppOnlyScannedData st x idx nf).state, .ignored, false⟩) := by
  have h1 : ∀ (st : ScannerState) (y : List Char) (id : Nat) (lf nf : Bool),
      st.isScanning = true → handleScannedData st y id lf nf = ⟨st, .ignored, false⟩ := by
    intro st y id lf nf h
    unfold handleScannedData
    simp [h]
  have h3 : ∀ (st : AppScannerState) (y : List Char) (id : Nat) (nf : Bool),
      st.isScanning = true → handleAppOnlyScannedData st y id nf = ⟨st, .ignored, false⟩ := by
    intro st y id nf h
    unfold handleAppOnlyScannedData
    simp [h]
  refine ⟨h1, ?_, h3, ?_⟩
  · intro st x y idx idy lf nf lf2 nf2 h
    exact h1 _ y idy lf2 nf2 (handleScannedData_isScanning st x idx lf nf h)
  · intro st x y idx idy nf nf2 h
    exact h3 _ y idy nf2 (handleAppOnlyScannedData_isScanning st x idx nf h)

/-- Witness for C4 at concrete inputs: from the initial (Idle) state, a first
scan of `tel:1` followed immediately by a scan of `tel:2` leaves the second
event Ignored in both dispatchers. -/
theorem suppressed_drops_witness :
    handleScannedData (handleScannedData initialScannerState (str "tel:1") 1 false false).state
        (str "tel:2") 2 false false
      = ⟨(handleScannedData initialScannerState (str "tel:1") 1 false false).state,
          .ignored, false⟩
  ∧ handleAppOnlyScannedData
        (handleAppOnlyScannedData initialAppScannerState (str "tel:1") 1 false).state
        (str "tel:2") 2 false
      = ⟨(handleAppOnlyScannedData initialAppScannerState (str "tel:1") 1 false).state,
          .ignored, false⟩ :=
  ⟨suppressed_drops.2.1 initialScannerState (str "tel:1") (str "tel:2") 1 2
      false false false false rfl,
   suppressed_drops.2.2.2 initialAppScannerState (str "tel:1") (str "tel:2") 1 2
      false false rfl⟩

/-- Inserting at the head over a 49-truncated tail agrees with inserting over
the full tail, up to truncation at 50. -/
theorem take50_insert {α : Type} (A : List α) (x : α) (h : List α) :
    (A ++ x :: h.take 49).take 50 = (A ++ x :: h).take 50 := by
  have key : ∀ m : Nat, m ≤ 50 → (x :: h.take 49).take m = (x :: h).take m := by
    intro m hm
    cases m with
    | zero => simp
    | succ k =>
      simp [List.take_succ_cons, List.take_take, Nat.min_eq_left (by omega : k ≤ 49)]
  rw [List.take_append_eq_append_take, List.take_append_eq_append_take]
  congr 1
  exact key _ (Nat.sub_le 50 A.length)

/-- History of the general dispatcher after a sequence of timer-separated
scans: the reversed entry list of the events, prepended to the old history,
truncated at 50. -/
theorem runScans_history (evs : List (List Char × Nat)) :
    ∀ st : ScannerState, st.isScanning = false → st.scanHistory.length ≤ 50 →
      (runScans st evs).scanHistory
        = ((evs.map mkEntry).reverse ++ st.scanHistory).take 50 := by
  induction evs with
  | nil =>
    intro st h hlen
    simp [runScans, List.take_of_length_le hlen]
  | cons e es ih =>
    intro st h hlen
    have hist : (scanTimerFire (handleScannedData st e.1 e.2 false false).state).scanHistory
        = mkEntry e :: st.scanHistory.take 49 := by
      simp [scanTimerFire, handleScannedData_scanHistory st e.1 e.2 false false h, mkEntry]
    show (runScans (scanTimerFire (handleScannedData st e.1 e.2 false false).state) es).scanHistory = _
    rw [ih _ (by simp [scanTimerFire]) (by rw [hist]; simp [List.length_take]), hist,
      take50_insert]
    simp

/-- History of the restricted dispatcher after a sequence of timer-separated
scans. -/
theorem runAppScans_history (evs : List (List Char × Nat)) :
    ∀ st : AppScannerState, st.isScanning = false → st.appScanHistory.length ≤ 50 →
      (runAppScans st evs).appScanHistory
        = ((evs.map mkAppEntry).reverse ++ st.appScanHistory).take 50 := by
  induction evs with
  | nil =>
    intro st h hlen
    simp [runAppScans, List.take_of_length_le hlen]
  | cons e es ih =>
    intro st h hlen
    have hist : (appScanTimerFire (handleAppOnlyScannedData st e.1 e.2 false).state).appScanHistory
        = mkAppEntry e :: st.appScanHistory.take 49 := by
      simp [appScanTimerFire, handleAppOnlyScannedData_history st e.1 e.2 false h, mkAppEntry]
    show (runAppScans (appScanTimerFire (handleAppOnlyScannedData st e.1 e.2 false).state) es).appScanHistory = _
    rw [ih _ (by simp [appScanTimerFire]) (by rw [hist]; simp [List.length_take]), hist,
      take50_insert]
    simp

/-- Truncating the reversed image of a 60-element list at 50 keeps exactly the
images of the last 50 elements, newest first. -/
theorem reverse_take_of_sixty {α β : Type} (f : α → β) (evs : List α)
    (h : evs.length = 60) :
    ((evs.map f).reverse).take 50 = ((evs.drop 10).map f).reverse := by
  conv_lhs => rw [show evs = evs.take 10 ++ evs.drop 10 from (List.take_append_drop 10 evs).symm]
  rw [List.map_append, List.reverse_append, List.take_left']
  rw [List.length_reverse, List.length_map, List.length_drop, h]

/-- C5: each scan history is a bounded most-recent-first sequence capped at 50:
from Idle, an insertion places the new entry first over the first 49 old ones
(evicting the oldest once the cap would be exceeded), and after 60 sequential
timer-separated scans each history holds exactly the 50 most recent entries,
newest first. -/
theorem history_bounded :
    (∀ (st : ScannerState) (data : List Char) (id : Nat) (lf nf : Bool),
        st.isScanning = false →
        (handleScannedData st data id lf nf).state.scanHistory
          = ⟨id, data, (identifyDataType data).type⟩ :: st.scanHistory.take 49)
  ∧ (∀ evs : List (List Char × Nat), evs.length = 60 →
        (runScans initialScannerState evs).scanHistory
            = ((evs.drop 10).map mkEntry).reverse
        ∧ (runScans initialScannerState evs).scanHistory.length = 50)
  ∧ (∀ (st : AppScannerState) (data : List Char) (id : Nat) (nf : Bool),
        st.isScanning = false →
        (handleAppOnlyScannedData st data id nf).state.appScanHistory
          = ⟨id, data, (validateAppQRCode data).type, (validateAppQRCode data).isValid⟩
              :: st.appScanHistory.take 49)
  ∧ (∀ evs : List (List Char × Nat), evs.length = 60 →
        (runAppScans initialAppScannerState evs).appScanHistory
            = ((evs.drop 10).map mkAppEntry).reverse
        ∧ (runAppScans initialAppScannerState evs).appScanHistory.length = 50) := by
  refine ⟨handleScannedData_scanHistory, ?_, handleAppOnlyScannedData_history, ?_⟩
  · intro evs h
    have heq : (runScans initialScannerState evs).scanHistory
        = ((evs.drop 10).map mkEntry).reverse := by
      rw [runScans_history evs initialScannerState rfl (by simp [initialScannerState])]
      rw [show initialScannerState.scanHistory = [] from rfl, List.append_nil]
      exact reverse_take_of_sixty mkEntry evs h
    refine ⟨heq, ?_⟩
    rw [heq, List.length_reverse, List.length_map, List.length_drop, h]
  · intro evs h
    have heq : (runAppScans initialAppScannerState evs).appScanHistory
        = ((evs.drop 10).map mkAppEntry).reverse := by
      rw [runAppScans_history evs initialAppScannerState rfl (by simp [initialAppScannerState])]
      rw [show initialAppScannerState.appScanHistory = [] from rfl, List.append_nil]
      exact reverse_take_of_sixty mkAppEntry evs h
    refine ⟨heq, ?_⟩
    rw [heq, List.length_reverse, List.length_map, List.length_drop, h]

/-- Witness for C5: sixty concrete scans leave both histories at exactly 50
entries. -/
theorem history_bounded_witness :
    (runScans initialScannerState
        ((List.range 60).map (fun i => (str "x", i)))).scanHistory.length = 50
  ∧ (runAppScans initialAppScannerState
        ((List.range 60).map (fun i => (str "x", i)))).appScanHistory.length = 50 :=
  ⟨(history_bounded.2.1 ((List.range 60).map (fun i => (str "x", i))) (by simp)).2,
   (history_bounded.2.2.2 ((List.range 60).map (fun i => (str "x", i))) (by simp)).2⟩

/-- C6: in the Idle state the restricted dispatcher rejects every payload not
starting with `qrcodeapp://` — outcome Rejected with the fixed "not
app-related" reason, and a history entry with `isValid = false` is still
recorded — while a payload with the prefix receives deep-link handling and a
history entry with `isValid = true`.  Concretely, `https://example.com` is
Rejected (validity false) and `qrcodeapp://home` is Navigated to Home
(validity true). -/
theorem appOnly_gate :
    (∀ (st : AppScannerState) (data : List Char) (id : Nat) (nf : Bool),
        st.isScanning = false →
        startsWithL (str "qrcodeapp://") data = false →
        (handleAppOnlyScannedData st data id nf).outcome = .rejected
        ∧ (handleAppOnlyScannedData st data id nf).state.appScanHistory
            = ⟨id, data, str "External/Invalid", false⟩ :: st.appScanHistory.take 49
        ∧ (handleAppOnlyScannedData st data id nf).state.showResultPage = true
        ∧ (handleAppOnlyScannedData st data id nf).state.currentScannedData
            = some ⟨data, str "Rejected", str "This QR code is not app-related"⟩)
  ∧ (∀ (st : AppScannerState) (data : List Char) (id : Nat),
        st.isScanning = false →
        startsWithL (str "qrcodeapp://") data = true →
        ∃ t, appDeepLinkTarget data = some t
        ∧ (handleAppOnlyScannedData st data id false).outcome = .navigated t
        ∧ (handleAppOnlyScannedData st data id false).state.appScanHistory
            = ⟨id, data, str "App Deep Link", true⟩ :: st.appScanHistory.take 49)
  ∧ (handleAppOnlyScannedData initialAppScannerState (str "https://example.com") 0 false).outcome
      = .rejected
  ∧ (handleAppOnlyScannedData initialAppScannerState
        (str "https://example.com") 0 false).state.appScanHistory.map (fun e => e.isValid)
      = [false]
  ∧ (handleAppOnlyScannedData initialAppScannerState (str "qrcodeapp://home") 0 false).outcome
      = .navigated .home
  ∧ (handleAppOnlyScannedData initialAppScannerState
        (str "qrcodeapp://home") 0 false).state.appScanHistory.map (fun e => e.isValid)
      = [true] := by
  refine ⟨?_, ?_, by decide, by decide, by decide, by decide⟩
  · intro st data id nf hIdle hsw
    have hval : validateAppQRCode data
        = ⟨false, str "External/Invalid", str "Not app-related"⟩ := by
      simp [validateAppQRCode, hsw]
    unfold handleAppOnlyScannedData
    simp [hIdle, hval]
  · intro st data id hIdle hsw
    have hval : validateAppQRCode data
        = ⟨true, str "App Deep Link", str "Navigate within app"⟩ := by
      simp [validateAppQRCode, hsw]
    obtain ⟨x, y, ys, hsplit⟩ :=
      splitOnL_two_of_startsWith (str "qrcodeapp://") data (by simp [str]) hsw
    have hpath : appDeepLinkPath data = some y := by simp [appDeepLinkPath, hsplit]
    obtain ⟨t, htgt⟩ : ∃ t, appDeepLinkTarget data = some t := by
      unfold appDeepLinkTarget
      rw [hpath]
      exact ⟨_, rfl⟩
    refine ⟨t, htgt, ?_, ?_⟩
    · unfold handleAppOnlyScannedData
      simp only [hIdle, Bool.false_eq_true, if_false, hval]
      unfold handleAppDeepLinkNavigation
      rw [htgt]
      by_cases ht : t = NavTarget.scanner <;> simp [ht]
    · rw [handleAppOnlyScannedData_history st data id false hIdle, hval]

/-- Witness for C6: a concrete non-app payload is rejected from the initial
state of the restricted dispatcher. -/
theorem appOnly_gate_witness :
    (handleAppOnlyScannedData initialAppScannerState (str "hello") 3 false).outcome
      = AppOutcome.rejected :=
  (appOnly_gate.1 initialAppScannerState (str "hello") 3 false rfl (by decide)).1

/-- Counterexample to C7 as stated: for the auto-category payload
`qrcodeapp://home` whose navigation invocation fails, the substituted
Presented outcome carries the App-deep-link classification with reason
`Navigation failed` — not an Error classification. -/
theorem execFailure_claim_counterexample :
    (handleScannedData initialScannerState (str "qrcodeapp://home") 0 false true).outcome
      = .presented ⟨str "qrcodeapp://home", ⟨.appDeepLink, str "Navigation failed"⟩⟩
    ∧ ContentType.appDeepLink ≠ ContentType.error := ⟨by decide, by decide⟩

/-- C7 amended: an invocation failure is always caught and presented, never
fatal, and the suppression timer is still scheduled (so the machine leaves
Suppressed when it fires); for the four Linking-based auto categories the
substituted Presented outcome carries the Error classification (`Could not
process`) with the raw payload, while for an AppDeepLink payload (off the
no-op scanner target) the deep-link handler's own catch substitutes a
Presented outcome carrying the original App-deep-link classification with
reason `Navigation failed`. -/
theorem execFailure_amended :
    (∀ (st : ScannerState) (data : List Char) (id : Nat),
        st.isScanning = false →
        ((identifyDataType data).type = .website ∨ (identifyDataType data).type = .phone
          ∨ (identifyDataType data).type = .sms ∨ (identifyDataType data).type = .email) →
        (handleScannedData st data id true false).outcome
            = .presented ⟨data, ⟨.error, str "Could not process"⟩⟩
        ∧ (handleScannedData st data id true false).state.showResultPage = true
        ∧ (handleScannedData st data id true false).state.currentScannedData
            = some ⟨data, ⟨.error, str "Could not process"⟩⟩
        ∧ (handleScannedData st data id true false).timerScheduled = true
        ∧ (scanTimerFire (handleScannedData st data id true false).state).isScanning = false)
  ∧ (∀ (st : ScannerState) (data : List Char) (id : Nat),
        st.isScanning = false →
        (identifyDataType data).type = .appDeepLink →
        deepLinkTarget data ≠ .scanner →
        (handleScannedData st data id false true).outcome
            = .presented ⟨data, ⟨.appDeepLink, str "Navigation failed"⟩⟩
        ∧ (handleScannedData st data id false true).timerScheduled = true
        ∧ (scanTimerFire (handleScannedData st data id false true).state).isScanning = false) := by
  constructor
  · intro st data id hIdle hty
    unfold handleScannedData
    simp only [hIdle, Bool.false_eq_true, if_false]
    have hcond : (identifyDataType data).type = .website ∨ (identifyDataType data).type = .phone
        ∨ (identifyDataType data).type = .sms ∨ (identifyDataType data).type = .email
        ∨ (identifyDataType data).type = .appDeepLink := by tauto
    rw [if_pos hcond]
    rcases hdi : identifyDataType data with ⟨ty, ac⟩
    rw [hdi] at hty
    unfold executeAction
    rcases hty with h | h | h | h <;> simp_all [scanTimerFire]
  · intro st data id hIdle hty hsc
    unfold handleScannedData
    simp only [hIdle, Bool.false_eq_true, if_false]
    rw [if_pos (by tauto : (identifyDataType data).type = .website
      ∨ (identifyDataType data).type = .phone ∨ (identifyDataType data).type = .sms
      ∨ (identifyDataType data).type = .email ∨ (identifyDataType data).type = .appDeepLink)]
    rcases hdi : identifyDataType data with ⟨ty, ac⟩
    rw [hdi] at hty
    subst hty
    unfold executeAction handleDeepLinkNavigation
    simp_all [scanTimerFire]

/-- Witness for C7's amended statement: a failing dialer invocation on
`tel:5` is presented as Error. -/
theorem execFailure_amended_witness :
    (handleScannedData initialScannerState (str "tel:5") 4 true false).outcome
      = .presented ⟨str "tel:5", ⟨.error, str "Could not process"⟩⟩ :=
  (execFailure_amended.1 initialScannerState (str "tel:5") 4 rfl
    (Or.inr (Or.inl (by decide)))).1

/-- Specification-side reading of the Website rule actually implemented by
the regex: the string, ASCII-lowercased, is `http://` or `https://` followed
by at least one character, the first of which is not a line terminator. -/
def websiteCond (s : List Char) : Prop :=
  ∃ c rest, (s.map Char.toLower = str "http://" ++ c :: rest
              ∨ s.map Char.toLower = str "https://" ++ c :: rest)
            ∧ jsDot c = true

theorem matchesHttpRegex_iff (s : List Char) :
    matchesHttpRegex s = true ↔ websiteCond s := by
  constructor
  · intro h
    unfold matchesHttpRegex at h
    split at h
    · rename_i c tail heq
      exact ⟨c, tail, Or.inl heq, h⟩
    · rename_i c tail heq
      exact ⟨c, tail, Or.inr heq, h⟩
    · exact absurd h (by simp)
  · rintro ⟨c, rest, hor, hdot⟩
    unfold matchesHttpRegex
    rcases hor with heq | heq <;> rw [heq] <;> exact hdot

/-- Counterexample to C1 as stated: the bare string `http://` begins
(case-insensitively, indeed literally) with `http://` yet classifies as Text,
because the regex `^https?:\/\/.+` requires at least one character after the
scheme. -/
theorem classify_claim_counterexample :
    startsWithL (str "http://") (str "http://") = true
    ∧ (identifyDataType (str "http://")).type = .text
    ∧ ContentType.text ≠ ContentType.website := ⟨by decide, by decide, by decide⟩

/-- C1 amended: the classifier applies its rules in strict priority order with
first match winning, where rule 1 (Website) fires exactly when the string
matches `http://` or `https://` ASCII-case-insensitively *followed by at least
one character that is not a line terminator*; otherwise the case-sensitive
prefixes `tel:`, `sms:`, `mailto:` give Phone, SMS, Email; otherwise
`BEGIN:VCARD`…`END:VCARD` gives ContactCard and `BEGIN:VEVENT`…`END:VEVENT`
gives CalendarEvent; otherwise prefix `qrcodeapp://` gives AppDeepLink; and
everything matching none of the rules (including the empty string and a bare
scheme such as `http://`) gives Text. -/
theorem classify_priority_amended :
    (∀ s : List Char, websiteCond s → (identifyDataType s).type = .website)
  ∧ (∀ s : List Char, ¬ websiteCond s → startsWithL (str "tel:") s = true →
        (identifyDataType s).type = .phone)
  ∧ (∀ s : List Char, ¬ websiteCond s → startsWithL (str "sms:") s = true →
        (identifyDataType s).type = .sms)
  ∧ (∀ s : List Char, ¬ websiteCond s → startsWithL (str "mailto:") s = true →
        (identifyDataType s).type = .email)
  ∧ (∀ s : List Char, ¬ websiteCond s → startsWithL (str "BEGIN:VCARD") s = true →
        includesL (str "END:VCARD") s = true → (identifyDataType s).type = .contactCard)
  ∧ (∀ s : List Char, ¬ websiteCond s → startsWithL (str "BEGIN:VEVENT") s = true →
        includesL (str "END:VEVENT") s = true → (identifyDataType s).type = .calendarEvent)
  ∧ (∀ s : List Char, ¬ websiteCond s → startsWithL (str "qrcodeapp://") s = true →
        (identifyDataType s).type = .appDeepLink)
  ∧ (∀ s : List Char, ¬ websiteCond s →
        startsWithL (str "tel:") s = false → startsWithL (str "sms:") s = false →
        startsWithL (str "mailto:") s = false →
        (startsWithL (str "BEGIN:VCARD") s && includesL (str "END:VCARD") s) = false →
        (startsWithL (str "BEGIN:VEVENT") s && includesL (str "END:VEVENT") s) = false →
        startsWithL (str "qrcodeapp://") s = false →
        (identifyDataType s).type = .text)
  ∧ (identifyDataType []).type = .text := by
  have hmr : ∀ s : List Char, ¬ websiteCond s → matchesHttpRegex s = false := by
    intro s hW
    cases hmm : matchesHttpRegex s
    · rfl
    · exact absurd ((matchesHttpRegex_iff s).mp hmm) hW
  refine ⟨?_, ?_, ?_, ?_, ?_, ?_, ?_, ?_, by decide⟩
  · intro s hW
    have := (matchesHttpRegex_iff s).mpr hW
    simp [identifyDataType, this]
  · intro s hW hp
    obtain ⟨t, rfl⟩ := (startsWithL_iff _ _).mp hp
    simp [identifyDataType,
      show matchesHttpRegex (str "tel:" ++ t) = false from rfl,
      startsWithL_append]
  · intro s hW hp
    obtain ⟨t, rfl⟩ := (startsWithL_iff _ _).mp hp
    simp [identifyDataType,
      show matchesHttpRegex (str "sms:" ++ t) = false from rfl,
      show startsWithL (str "tel:") (str "sms:" ++ t) = false from rfl,
      startsWithL_append]
  · intro s hW hp
    obtain ⟨t, rfl⟩ := (startsWithL_iff _ _).mp hp
    simp [identifyDataType,
      show matchesHttpRegex (str "mailto:" ++ t) = false from rfl,
      show startsWithL (str "tel:") (str "mailto:" ++ t) = false from rfl,
      show startsWithL (str "sms:") (str "mailto:" ++ t) = false from rfl,
      startsWithL_append]
  · intro s hW hp hinc
    obtain ⟨t, rfl⟩ := (startsWithL_iff _ _).mp hp
    simp [identifyDataType,
      show matchesHttpRegex (str "BEGIN:VCARD" ++ t) = false from rfl,
      show startsWithL (str "tel:") (str "BEGIN:VCARD" ++ t) = false from rfl,
      show startsWithL (str "sms:") (str "BEGIN:VCARD" ++ t) = false from rfl,
      show startsWithL (str "mailto:") (str "BEGIN:VCARD" ++ t) = false from rfl,
      startsWithL_append, hinc]
  · intro s hW hp hinc
    obtain ⟨t, rfl⟩ := (startsWithL_iff _ _).mp hp
    simp [identifyDataType,
      show matchesHttpRegex (str "BEGIN:VEVENT" ++ t) = false from rfl,
      show startsWithL (str "tel:") (str "BEGIN:VEVENT" ++ t) = false from rfl,
      show startsWithL (str "sms:") (str "BEGIN:VEVENT" ++ t) = false from rfl,
      show startsWithL (str "mailto:") (str "BEGIN:VEVENT" ++ t) = false from rfl,
      show startsWithL (str "BEGIN:VCARD") (str "BEGIN:VEVENT" ++ t) = false from rfl,
      startsWithL_append, hinc]
  · intro s hW hp
    rw [identifyDataType_of_qrcodeapp s hp]
  · intro s hW h1 h2 h3 h4 h5 h6
    simp [identifyDataType, hmr s hW, h1, h2, h3, h4, h5, h6]

/-- Witness for C1's amended statement: the mixed-case scheme `HTTP://x`
satisfies the corrected Website condition and classifies as Website. -/
theorem classify_priority_amended_witness :
    (identifyDataType (str "HTTP://x")).type = ContentType.website :=
  classify_priority_amended.1 (str "HTTP://x") ⟨'x', [], Or.inl (by decide), by decide⟩

/-- General path extraction on a deep link whose remainder holds no further
`://`. -/
theorem deepLinkPath_qrcodeapp (t : List Char) (h : includesL (str "://") t = false) :
    deepLinkPath (str "qrcodeapp://" ++ t) = t := by
  have hcond : includesL (str "://") (str "qrcodeapp://" ++ t) = true :=
    (includesL_iff _ _).mpr ⟨str "qrcodeapp", t, rfl⟩
  simp [deepLinkPath, hcond, splitOnL_scheme t h]

/-- An occurrence of `qrcodeapp://` contains an occurrence of `://`. -/
theorem includes_scheme_of_includes_app (t : List Char)
    (h : includesL (str "qrcodeapp://") t = true) : includesL (str "://") t = true := by
  rcases (includesL_iff _ _).mp h with ⟨a, b, rfl⟩
  exact (includesL_iff _ _).mpr
    ⟨a ++ str "qrcodeapp", b, by rw [List.append_assoc a (str "qrcodeapp") (str "://")]; rfl⟩

theorem not_includes_app (t : List Char) (h : includesL (str "://") t = false) :
    includesL (str "qrcodeapp://") t = false := by
  cases hq : includesL (str "qrcodeapp://") t
  · rfl
  · rw [includes_scheme_of_includes_app t hq] at h
    exact absurd h (by simp)

/-- Restricted path extraction on a deep link whose remainder holds no
further `qrcodeapp://`. -/
theorem appDeepLinkPath_qrcodeapp (t : List Char)
    (h : includesL (str "qrcodeapp://") t = false) :
    appDeepLinkPath (str "qrcodeapp://" ++ t) = some t := by
  simp [appDeepLinkPath, splitOnL_appscheme t h]

/-- An occurring pattern is no longer than the string. -/
theorem includesL_length (p s : List Char) (h : includesL p s = true) :
    p.length ≤ s.length := by
  rcases (includesL_iff _ _).mp h with ⟨a, b, rfl⟩
  simp [List.length_append]
  omega

/-- When the pattern occurs, `findSub` finds an occurrence. -/
theorem findSub_isSome_of_includes (p s : List Char) (h : includesL p s = true) :
    ∃ a b, findSub p s = some (a, b) := by
  induction s with
  | nil =>
    simp only [includesL] at h
    exact ⟨[], [], by simp [findSub, h]⟩
  | cons c cs ih =>
    by_cases hsw : startsWithL p (c :: cs) = true
    · exact ⟨[], (c :: cs).drop p.length, by simp [findSub, hsw]⟩
    · simp only [includesL, Bool.or_eq_true] at h
      rcases h with h | h
      · exact absurd h hsw
      · obtain ⟨a, b, hab⟩ := ih h
        exact ⟨c :: a, b, by simp [findSub, hsw, hab]⟩

/-- What `findSub` returns is a genuine decomposition at the leftmost
occurrence: the string splits as `a ++ p ++ b`, and no occurrence of `p`
starts earlier — equivalently `p` does not occur in `a ++ p.dropLast`, the
longest part of the string ending strictly before the found occurrence
ends. -/
theorem findSub_some_decomp (p : List Char) (hp : p ≠ []) :
    ∀ s a b : List Char, findSub p s = some (a, b) →
      s = a ++ p ++ b ∧ includesL p (a ++ p.dropLast) = false := by
  intro s
  induction s with
  | nil =>
    intro a b h
    have hsw : startsWithL p [] = false := by
      cases p with
      | nil => exact absurd rfl hp
      | cons q qs => rfl
    simp [findSub, hsw] at h
  | cons c cs ih =>
    intro a b h
    by_cases hsw : startsWithL p (c :: cs) = true
    · obtain ⟨t, hct⟩ := (startsWithL_iff _ _).mp hsw
      rw [show findSub p (c :: cs) = some ([], (c :: cs).drop p.length) from by
        simp [findSub, hsw]] at h
      obtain ⟨ha, hb⟩ : [] = a ∧ (c :: cs).drop p.length = b := by
        simpa using h
      subst ha
      subst hb
      constructor
      · rw [hct, List.drop_left]
        rfl
      · have hfalse : includesL p p.dropLast = false := by
          cases hinc : includesL p p.dropLast
          · rfl
          · have hle := includesL_length _ _ hinc
            rw [List.length_dropLast] at hle
            have hpos : 0 < p.length := List.length_pos.mpr hp
            omega
        simpa using hfalse
    · rw [show findSub p (c :: cs)
          = (match findSub p cs with
             | none => none
             | some (x, y) => some (c :: x, y)) from by simp [findSub, hsw]] at h
      rcases hcs : findSub p cs with _ | ⟨a2, b2⟩
      · rw [hcs] at h
        exact absurd h (by simp)
      · rw [hcs] at h
        obtain ⟨ha, hb⟩ : c :: a2 = a ∧ b2 = b := by simpa using h
        subst ha
        subst hb
        obtain ⟨hdec, hfir⟩ := ih a2 b2 hcs
        refine ⟨by rw [hdec]; rfl, ?_⟩
        have hsw2 : startsWithL p (c :: (a2 ++ p.dropLast)) = false := by
          cases hx : startsWithL p (c :: (a2 ++ p.dropLast))
          · rfl
          · exfalso
            obtain ⟨u, hu⟩ := (startsWithL_iff _ _).mp hx
            have hglue : (c :: (a2 ++ p.dropLast)) ++ ([p.getLast hp] ++ b2) = c :: cs := by
              rw [hdec]
              conv_rhs => rw [← List.dropLast_append_getLast hp]
              simp [List.append_assoc]
            have hcontra : startsWithL p (c :: cs) = true := by
              refine (startsWithL_iff _ _).mpr ⟨u ++ ([p.getLast hp] ++ b2), ?_⟩
              rw [← hglue, hu, List.append_assoc]
            exact absurd hcontra hsw
        show includesL p (c :: (a2 ++ p.dropLast)) = false
        simp [includesL, hsw2, hfir]

/-- Converse direction: a decomposition whose shown occurrence is leftmost is
what `findSub` finds. -/
theorem findSub_append_first (p a t : List Char) (hp : p ≠ [])
    (hfirst : includesL p (a ++ p.dropLast) = false) :
    findSub p (a ++ p ++ t) = some (a, t) := by
  induction a with
  | nil =>
    cases p with
    | nil => exact absurd rfl hp
    | cons q qs =>
      rw [show ([] : List Char) ++ (q :: qs) ++ t = q :: (qs ++ t) from rfl]
      rw [show findSub (q :: qs) (q :: (qs ++ t))
          = some ([], (q :: (qs ++ t)).drop (q :: qs).length) from by
        simp [findSub, show startsWithL (q :: qs) (q :: (qs ++ t)) = true from
          startsWithL_append (q :: qs) t]]
      rw [show q :: (qs ++ t) = (q :: qs) ++ t from rfl, List.drop_left]
  | cons c a2 ih =>
    have hfirst2 : includesL p (a2 ++ p.dropLast) = false := by
      have hh : includesL p (c :: (a2 ++ p.dropLast)) = false := hfirst
      simp only [includesL, Bool.or_eq_false_iff] at hh
      exact hh.2
    have hsw : startsWithL p (c :: (a2 ++ p ++ t)) = false := by
      cases hx : startsWithL p (c :: (a2 ++ p ++ t))
      · rfl
      · exfalso
        obtain ⟨u, hu⟩ := (startsWithL_iff _ _).mp hx
        have hp1 : p <+: (c :: (a2 ++ p ++ t)) := ⟨u, hu.symm⟩
        have hkey : (c :: (a2 ++ p.dropLast)) <+: (c :: (a2 ++ p ++ t)) := by
          refine ⟨[p.getLast hp] ++ t, ?_⟩
          conv_rhs => rw [show a2 ++ p ++ t = a2 ++ (p ++ t) from by
            rw [List.append_assoc]]
          conv_rhs => rw [← List.dropLast_append_getLast hp]
          simp [List.append_assoc]
        have hlen : p.length ≤ (c :: (a2 ++ p.dropLast)).length := by
          simp [List.length_dropLast]
          have hpos : 0 < p.length := List.length_pos.mpr hp
          omega
        obtain ⟨w, hw⟩ := List.prefix_of_prefix_length_le hp1 hkey hlen
        have hin : includesL p (c :: (a2 ++ p.dropLast)) = true :=
          includesL_of_startsWithL _ _ ((startsWithL_iff _ _).mpr ⟨w, hw.symm⟩)
        have hf : includesL p (c :: (a2 ++ p.dropLast)) = false := hfirst
        rw [hin] at hf
        exact absurd hf (by simp)
    have hstep : findSub p (c :: (a2 ++ p ++ t))
        = if startsWithL p (c :: (a2 ++ p ++ t)) = true then
            some ([], (c :: (a2 ++ p ++ t)).drop p.length)
          else
            match findSub p (a2 ++ p ++ t) with
            | none => none
            | some (x, y) => some (c :: x, y) := rfl
    rw [show (c :: a2) ++ p ++ t = c :: (a2 ++ p ++ t) from rfl, hstep, hsw]
    simp only [Bool.false_eq_true, if_false]
    rw [ih hfirst2]

/-- Evaluation of `split` on a string holding exactly one occurrence of the
separator, shown leftmost-anchored. -/
theorem splitOnL_first_decomp (p a t : List Char) (hp : p ≠ [])
    (hfirst : includesL p (a ++ p.dropLast) = false)
    (ht : includesL p t = false) :
    splitOnL p (a ++ p ++ t) = [a, t] := by
  unfold splitOnL
  obtain ⟨n, hn⟩ : ∃ n, (a ++ p ++ t).length + 1 = n + 1 := ⟨_, rfl⟩
  rw [hn, splitOnAux_succ, findSub_append_first p a t hp hfirst]
  simp only [splitOnAux_of_none _ _ (findSub_eq_none _ _ ht)]

/-- Evaluation of the first two pieces of `split` on a string holding at
least two occurrences of the separator, each shown leftmost in turn. -/
theorem splitOnL_double_decomp (p a c d : List Char) (hp : p ≠ [])
    (hfa : includesL p (a ++ p.dropLast) = false)
    (hfc : includesL p (c ++ p.dropLast) = false) :
    ∃ zs, splitOnL p (a ++ p ++ (c ++ p ++ d)) = a :: c :: zs := by
  obtain ⟨n, hn⟩ : ∃ n, (a ++ p ++ (c ++ p ++ d)).length + 1 = n + 1 := ⟨_, rfl⟩
  have hnpos : 0 < n := by
    have hpos : 0 < p.length := List.length_pos.mpr hp
    simp [List.length_append] at hn
    omega
  obtain ⟨m, hm⟩ : ∃ m, n = m + 1 := ⟨n - 1, by omega⟩
  refine ⟨splitOnAux p m d, ?_⟩
  unfold splitOnL
  rw [hn, splitOnAux_succ, findSub_append_first p a (c ++ p ++ d) hp hfa]
  show a :: splitOnAux p n (c ++ p ++ d) = _
  rw [hm, splitOnAux_succ, findSub_append_first p c d hp hfc]

/-- Counterexample to C2 as stated: on `qrcodeapp://user/1/user/2` the
resolver navigates to UserDetail with id `1/` — the `split('user/')[1]`
segment between the first two occurrences of `user/` — and not with id
`1/user/2`, the substring following `user/`. -/
theorem resolve_user_counterexample :
    deepLinkTarget (str "qrcodeapp://user/1/user/2") = .userDetail (str "1/")
    ∧ str "1/" ≠ str "1/user/2"
    ∧ deepLinkTarget (str "qrcodeapp://user/1/user/2") ≠ .userDetail (str "1/user/2") :=
  ⟨by decide, by decide, by decide⟩

/-- C2 amended: for a deep link (path free of further `://` occurrences)
whose path contains `user/`, the resolver takes as id the `split('user/')[1]`
segment, not the whole substring following `user/`.  Conjunct 1 (coverage):
every path containing `user/` decomposes around its first occurrence as
`a ++ user/ ++ b` with no occurrence of `user/` starting earlier.  Conjunct 2:
when `user/` does not occur again in `b` (a single occurrence), the id is
`b`, the whole substring following it — non-empty gives UserDetail with that
id, empty gives Users.  Conjunct 3: when the path continues
`b = c ++ user/ ++ d` (a second occurrence), the id is `c`, the segment
strictly between the first two occurrences — again non-empty gives
UserDetail, empty gives Users.  Conjunct 4: a path matching none of the
recognized patterns resolves to Home as a default fallback, not a failure.
The claim's three concrete examples close the statement. -/
theorem resolve_user_amended :
    (∀ s : List Char, includesL (str "user/") s = true →
        ∃ a b, s = a ++ str "user/" ++ b
          ∧ includesL (str "user/") (a ++ str "user") = false)
  ∧ (∀ a b : List Char,
        includesL (str "://") (a ++ str "user/" ++ b) = false →
        includesL (str "user/") (a ++ str "user") = false →
        includesL (str "user/") b = false →
        deepLinkTarget (str "qrcodeapp://" ++ (a ++ str "user/" ++ b))
          = if b = [] then .users else .userDetail b)
  ∧ (∀ a c d : List Char,
        includesL (str "://") (a ++ str "user/" ++ (c ++ str "user/" ++ d)) = false →
        includesL (str "user/") (a ++ str "user") = false →
        includesL (str "user/") (c ++ str "user") = false →
        deepLinkTarget (str "qrcodeapp://" ++ (a ++ str "user/" ++ (c ++ str "user/" ++ d)))
          = if c = [] then .users else .userDetail c)
  ∧ (∀ rest : List Char, includesL (str "://") rest = false →
        includesL (str "user/") rest = false → includesL (str "users") rest = false →
        includesL (str "scanner") rest = false → includesL (str "home") rest = false →
        includesL (str "profile") rest = false → includesL (str "dashboard") rest = false →
        deepLinkTarget (str "qrcodeapp://" ++ rest) = .home)
  ∧ deepLinkTarget (str "qrcodeapp://user/42") = .userDetail (str "42")
  ∧ deepLinkTarget (str "qrcodeapp://user/") = .users
  ∧ deepLinkTarget (str "qrcodeapp://unknownpath") = .home := by
  refine ⟨?_, ?_, ?_, ?_, by decide, by decide, by decide⟩
  · intro s hs
    obtain ⟨a, b, hab⟩ := findSub_isSome_of_includes _ _ hs
    obtain ⟨hdec, hfirst⟩ := findSub_some_decomp (str "user/") (by decide) s a b hab
    exact ⟨a, b, hdec, hfirst⟩
  · intro a b h1 h2 h3
    have hpath : deepLinkPath (str "qrcodeapp://" ++ (a ++ str "user/" ++ b))
        = a ++ str "user/" ++ b := deepLinkPath_qrcodeapp _ h1
    have hu : includesL (str "user/") (a ++ str "user/" ++ b) = true :=
      (includesL_iff _ _).mpr ⟨a, b, rfl⟩
    have h2a : includesL (str "user/") (a ++ (str "user/").dropLast) = false := h2
    have hsplit : splitOnL (str "user/") (a ++ str "user/" ++ b) = [a, b] :=
      splitOnL_first_decomp (str "user/") a b (by decide) h2a h3
    simp only [deepLinkTarget]
    rw [hpath, hu, hsplit]
    rfl
  · intro a c d h1 h2 h3
    have hpath : deepLinkPath
          (str "qrcodeapp://" ++ (a ++ str "user/" ++ (c ++ str "user/" ++ d)))
        = a ++ str "user/" ++ (c ++ str "user/" ++ d) := deepLinkPath_qrcodeapp _ h1
    have hu : includesL (str "user/") (a ++ str "user/" ++ (c ++ str "user/" ++ d)) = true :=
      (includesL_iff _ _).mpr ⟨a, c ++ str "user/" ++ d, rfl⟩
    have h2a : includesL (str "user/") (a ++ (str "user/").dropLast) = false := h2
    have h3a : includesL (str "user/") (c ++ (str "user/").dropLast) = false := h3
    obtain ⟨zs, hsplit⟩ := splitOnL_double_decomp (str "user/") a c d (by decide) h2a h3a
    simp only [deepLinkTarget]
    rw [hpath, hu, hsplit]
    rfl
  · intro rest h1 h2 h3 h4 h5 h6 h7
    simp [deepLinkTarget, deepLinkPath_qrcodeapp rest h1, h2, h3, h4, h5, h6, h7]

/-- Witness for C2's amended statement, exercising the between-occurrences
regime at a concrete input with two `user/` occurrences. -/
theorem resolve_user_amended_witness :
    deepLinkTarget (str "qrcodeapp://"
        ++ ([] ++ str "user/" ++ (str "1/" ++ str "user/" ++ str "2")))
      = if str "1/" = ([] : List Char) then NavTarget.users
        else NavTarget.userDetail (str "1/") :=
  resolve_user_amended.2.2.1 [] (str "1/") (str "2") (by decide) (by decide) (by decide)

/-- Counterexample to C3 as stated: `qrcodeapp://profile` resolves to Users in
the general dispatcher but to Home (the default fallback) in the restricted
dispatcher, whose resolver has no `profile` branch. -/
theorem restricted_resolver_counterexample :
    deepLinkTarget (str "qrcodeapp://profile") = .users
    ∧ appDeepLinkTarget (str "qrcodeapp://profile") = some .home
    ∧ NavTarget.users ≠ NavTarget.home := ⟨by decide, by decide, by decide⟩

/-- C3 amended: on payloads with the `qrcodeapp://` prefix (path free of
further `://` occurrences) the restricted resolver agrees with the general
resolver except on paths that reach the general resolver's `profile` branch
(contain `profile` but none of `user/`, `users`, `scanner`, `home`), where
the general resolver gives Users and the restricted gives Home.  A path
containing `dashboard` resolves to Home in both dispatchers — in the general
one through its `dashboard` branch, in the restricted one through the
default fallback. -/
theorem restricted_resolver_refines :
    (∀ rest : List Char, includesL (str "://") rest = false →
        (includesL (str "user/") rest = true ∨ includesL (str "users") rest = true
          ∨ includesL (str "scanner") rest = true ∨ includesL (str "home") rest = true
          ∨ includesL (str "profile") rest = false) →
        appDeepLinkTarget (str "qrcodeapp://" ++ rest)
          = some (deepLinkTarget (str "qrcodeapp://" ++ rest)))
  ∧ deepLinkTarget (str "qrcodeapp://dashboard") = .home
  ∧ appDeepLinkTarget (str "qrcodeapp://dashboard") = some .home := by
  refine ⟨?_, by decide, by decide⟩
  intro rest h1 hcase
  have hg := deepLinkPath_qrcodeapp rest h1
  have ha := appDeepLinkPath_qrcodeapp rest (not_includes_app rest h1)
  simp only [deepLinkTarget, appDeepLinkTarget, hg, ha]
  by_cases hu : includesL (str "user/") rest = true
  · simp [hu]
  · by_cases hus : includesL (str "users") rest = true
    · simp [hu, hus]
    · by_cases hsc : includesL (str "scanner") rest = true
      · simp [hu, hus, hsc]
      · by_cases hh : includesL (str "home") rest = true
        · simp [hu, hus, hsc, hh]
        · have hpr : includesL (str "profile") rest = false := by
            rcases hcase with h | h | h | h | h
            · exact absurd h hu
            · exact absurd h hus
            · exact absurd h hsc
            · exact absurd h hh
            · exact h
          by_cases hd : includesL (str "dashboard") rest = true <;>
            simp [hu, hus, hsc, hh, hpr, hd]

/-- Witness for C3's amended statement: both dispatchers resolve
`qrcodeapp://home` to the same target. -/
theorem restricted_resolver_refines_witness :
    appDeepLinkTarget (str "qrcodeapp://" ++ str "home")
      = some (deepLinkTarget (str "qrcodeapp://" ++ str "home")) :=
  restricted_resolver_refines.1 (str "home") (by decide)
    (Or.inr (Or.inr (Or.inr (Or.inl (by decide)))))
